import Mathlib

/-!
Verification of the pave-billing-api repository: a shallow embedding of its
money arithmetic (bills/money), its billing-period workflow
(bills/workflow), its dispatcher (the bill service) and its period-end
timer computation, together with theorems settling the specification
claims C1 to C10.

Conventions of the embedding:
  - Go `int64` arithmetic is modelled on `Int` with an explicit two's
    complement wrap (`wrap64`) exactly where Go can overflow.
  - `shopspring/decimal` values are modelled as exact rationals; every
    decimal operation the source uses (NewFromString, Mul, Round(0),
    IntPart, Div by 100) is exact or explicitly rounded, as in the library.
  - Go strings are modelled as `List Char` (one `Char` per rune, as Go
    ranges over runes for the operations used here); `String` wrappers are
    provided where the source-level API takes strings.
  - The float64 path of `centsToDecimalString` (`fmt.Sprintf` of
    `float64(cents)/100`) is modelled by explicit IEEE-754 binary64
    round-to-nearest-even on rationals.
-/

/-- Two's complement wrap of an integer into the `int64` range, the behaviour
of overflowing signed arithmetic in Go. -/
def wrap64 (n : ℤ) : ℤ :=
  (n + 2 ^ 63) % 2 ^ 64 - 2 ^ 63

/-- Round half away from zero to an integer: the rounding mode of
`decimal.Round(0)` in shopspring/decimal. -/
def roundHalfAway (q : ℚ) : ℤ :=
  if 0 ≤ q then ⌊q + 1 / 2⌋ else -⌊-q + 1 / 2⌋

/-- Round to nearest integer with ties to even: the rounding used by IEEE-754
binary64 operations and by Go's correctly rounded float formatting. -/
def roundTE (q : ℚ) : ℤ :=
  let f := ⌊q⌋
  let r := q - f
  if r < 1 / 2 then f
  else if 1 / 2 < r then f + 1
  else if f % 2 = 0 then f else f + 1

/-- Currencies in the source are plain Go strings (`type Currency string`). -/
abbrev Currency := String

def USD : Currency := "USD"

def GEL : Currency := "GEL"

/-- The symbol table of `Currency.Symbol` in bills/money/rates.go. -/
def currencySymbol (c : Currency) : String :=
  if c = USD then "$" else if c = GEL then "₾" else c

/-- Money (bills/money): an integer count of cents plus a currency tag. -/
structure Money where
  cents : ℤ
  currency : Currency
deriving DecidableEq

/-- ExchangeRates (bills/money/rates.go). -/
structure ExchangeRates where
  usdToGEL : ℚ
  gelToUSD : ℚ

/-- The process-wide rate table of bills/config/cfg.go. -/
def configRates : ExchangeRates :=
  { usdToGEL := 27777 / 10000, gelToUSD := 3601 / 10000 }

/-- decimalToCents: `amount.Mul(100).Round(0).IntPart()`. The `Round(0)` is
half away from zero; `IntPart` reads the value back as an `int64`, which for
an out-of-range big integer keeps the low 64 bits (two's complement). -/
def decimalToCents (amount : ℚ) : ℤ :=
  wrap64 (roundHalfAway (amount * 100))

/-- centsToDecimal: `decimal.NewFromInt(cents).Div(100)`; the division by 100
is exact (two decimal places, within shopspring's division precision). -/
def centsToDecimal (cents : ℤ) : ℚ :=
  (cents : ℚ) / 100

/-- Money.New: store the decimal amount as cents; no validation happens here. -/
def Money.new (amount : ℚ) (currency : Currency) : Money :=
  { cents := decimalToCents amount, currency := currency }

/-- Money.Add: same-currency only; the cents addition is Go `int64` addition
and therefore wraps on overflow. -/
def Money.add (m other : Money) : Except String Money :=
  if m.currency ≠ other.currency then
    .error "cannot add different currencies"
  else
    .ok { cents := wrap64 (m.cents + other.cents), currency := m.currency }

/-- Money.validate: currency must be USD or GEL and cents must be
non-negative. Returns the error message, or `none` on success. -/
def Money.validate (m : Money) : Option String :=
  if m.currency ≠ USD ∧ m.currency ≠ GEL then some "invalid currency"
  else if m.cents < 0 then some "amount cannot be negative"
  else none

/-- Money.ConvertTo: identity on equal currencies, otherwise multiply the
decimal amount by the matching rate and re-construct; only the USD/GEL pairs
are supported. -/
def Money.convertTo (m : Money) (targetCurrency : Currency)
    (rates : ExchangeRates) : Except String Money :=
  if m.currency = targetCurrency then .ok m
  else if m.currency = USD ∧ targetCurrency = GEL then
    .ok (Money.new (centsToDecimal m.cents * rates.usdToGEL) targetCurrency)
  else if m.currency = GEL ∧ targetCurrency = USD then
    .ok (Money.new (centsToDecimal m.cents * rates.gelToUSD) targetCurrency)
  else .error "unsupported currency conversion"

/-- C10: converting a Money value to its own currency succeeds and returns the
value unchanged, for every rate table and every currency tag, supported or
not: `ConvertTo` short-circuits on equal currencies before any rate lookup. -/
theorem c10_convert_same_currency (m : Money) (rates : ExchangeRates) :
    m.convertTo m.currency rates = .ok m := by
  simp [Money.convertTo]

/-- Decimal digit test, as in `strconv`: a character between '0' and '9'. -/
def isDigitChar (c : Char) : Bool :=
  '0' ≤ c && c ≤ '9'

/-- Value of a list of decimal digit characters, most significant first. -/
def digitsVal (cs : List Char) : ℕ :=
  cs.foldl (fun a c => 10 * a + (c.toNat - 48)) 0

/-- Signed base-10 integer grammar shared by `strconv.ParseInt` and
`big.Int.SetString`: an optional sign followed by a non-empty run of
digits. Both branches of shopspring's mantissa parse follow it (the
`ParseInt` branch is only taken for at most 18 digits and cannot
overflow). -/
def goParseSignedDigits (cs : List Char) : Option ℤ :=
  match cs with
  | [] => none
  | c :: rest =>
    if c = '+' then
      if rest ≠ [] ∧ rest.all isDigitChar then some (digitsVal rest : ℤ) else none
    else if c = '-' then
      if rest ≠ [] ∧ rest.all isDigitChar then some (-(digitsVal rest : ℤ)) else none
    else if (c :: rest).all isDigitChar then some (digitsVal (c :: rest) : ℤ)
    else none

/-- Exponent parse of shopspring's `NewFromString`: `strconv.ParseInt` with
bit size 32, so the marker's value must fit in `int32`
(math.MinInt32 = -2147483648 to math.MaxInt32 = 2147483647). -/
def goParseExp (cs : List Char) : Option ℤ :=
  match goParseSignedDigits cs with
  | none => none
  | some v => if -2147483648 ≤ v ∧ v ≤ 2147483647 then some v else none

/-- Split at the first 'e' or 'E', as `strings.IndexAny(value, "Ee")` does:
returns the mantissa part and, when an exponent marker exists, the
remainder after it. -/
def splitFirstEe : List Char → List Char × Option (List Char)
  | [] => ([], none)
  | c :: rest =>
    if c = 'e' ∨ c = 'E' then ([], some rest)
    else
      let p := splitFirstEe rest
      (c :: p.1, p.2)

/-- Scan of shopspring's `NewFromString` for the decimal point: at most one
'.' is allowed; the result is the part before the point and the part after
it (empty when there is no point or the point is last). -/
def splitOneDot : List Char → Option (List Char × List Char)
  | [] => some ([], [])
  | c :: rest =>
    if c = '.' then
      if rest.contains '.' then none else some ([], rest)
    else
      match splitOneDot rest with
      | none => none
      | some p => some (c :: p.1, p.2)

/-- Powers of ten with an integer exponent, as an exact rational. -/
def qpow10 (z : ℤ) : ℚ :=
  if 0 ≤ z then ((10 ^ z.toNat : ℕ) : ℚ) else ((10 ^ (-z).toNat : ℕ) : ℚ)⁻¹

/-- Model of `decimal.NewFromString` (shopspring), on rune lists: split off an
optional exponent part, allow at most one decimal point, concatenate the
digit runs around the point into the mantissa string, parse mantissa and
exponent, guard the combined exponent against the library's final
MinInt32/MaxInt32 check, and scale. Exact rational semantics; no whitespace
is accepted. -/
def parseGoDecimalChars (cs : List Char) : Option ℚ :=
  let p := splitFirstEe cs
  let expVal : Option ℤ :=
    match p.2 with
    | none => some 0
    | some ecs => goParseExp ecs
  match expVal with
  | none => none
  | some e0 =>
    match splitOneDot p.1 with
    | none => none
    | some parts =>
      match goParseSignedDigits (parts.1 ++ parts.2) with
      | none => none
      | some v =>
        if -2147483648 ≤ e0 - parts.2.length ∧ e0 - parts.2.length ≤ 2147483647
        then some ((v : ℚ) * qpow10 (e0 - parts.2.length))
        else none

/-- Model of `decimal.NewFromString` on strings. -/
def parseGoDecimal (s : String) : Option ℚ :=
  parseGoDecimalChars s.data

/-- money.NewFromString: parse the decimal string, build the Money value, then
validate it. -/
def NewFromString (amount : String) (currency : Currency) : Except String Money :=
  match parseGoDecimal amount with
  | none => .error "invalid amount format: invalid decimal"
  | some d =>
    let m := Money.new d currency
    match m.validate with
    | some e => .error ("invalid amount: " ++ e)
    | none => .ok m

/-- Floor of the base-2 logarithm of a positive rational: the exponent `e`
with `2 ^ e ≤ q < 2 ^ (e + 1)`. Used to locate the binade of an IEEE-754
value. -/
def qlog2floor (q : ℚ) : ℤ :=
  if 1 ≤ q then (Nat.log2 (Int.toNat ⌊q⌋) : ℤ)
  else
    let L : ℕ := Nat.log2 (Int.toNat ⌊1 / q⌋)
    if 1 ≤ q * ((2 ^ L : ℕ) : ℚ) then -(L : ℤ) else -(L : ℤ) - 1

/-- Powers of two with an integer exponent, as an exact rational. -/
def pow2z (z : ℤ) : ℚ :=
  if 0 ≤ z then ((2 ^ z.toNat : ℕ) : ℚ) else ((2 ^ (-z).toNat : ℕ) : ℚ)⁻¹

/-- Conversion of a Go `int64` to `float64`: exact up to `2 ^ 53`; above that,
round to 53 significant bits with ties to even. -/
def goFloatOfInt (c : ℤ) : ℚ :=
  if c.natAbs ≤ 2 ^ 53 then (c : ℚ)
  else
    let s : ℕ := Nat.log2 c.natAbs - 52
    (roundTE ((c : ℚ) / ((2 ^ s : ℕ) : ℚ)) : ℚ) * ((2 ^ s : ℕ) : ℚ)

/-- IEEE-754 binary64 division by 100: the correctly rounded
(round-to-nearest, ties to even) representable value nearest to `x / 100`.
The quotient is scaled into `[2 ^ 52, 2 ^ 53)`, rounded to an integer
significand, and scaled back. Inputs in the `int64 / 100` range are far from
the overflow and subnormal ranges. -/
def goDiv100 (x : ℚ) : ℚ :=
  let q := x / 100
  let e := qlog2floor |q|
  let s := e - 52
  (roundTE (q / pow2z s) : ℚ) * pow2z s

/-- Character for a single decimal digit value. -/
def digitChar (n : ℕ) : Char :=
  Char.ofNat (48 + n % 10)

/-- Decimal digit characters of a natural number, most significant first;
fuel-based recursion so that the definition unfolds by computation. -/
def natDigitsAux : ℕ → ℕ → List Char
  | 0, _ => []
  | _ + 1, n =>
    if n < 10 then [digitChar n]
    else natDigitsAux (n / 10) (n / 10) ++ [digitChar (n % 10)]
  
/-- Decimal digit characters of a natural number, most significant first. -/
def natDigits (n : ℕ) : List Char :=
  natDigitsAux (n + 1) n

/-- Two zero-padded digit characters for a remainder below 100. -/
def pad2 (r : ℕ) : List Char :=
  [digitChar ((r / 10) % 10), digitChar (r % 10)]

/-- Fixed two-decimal formatting of a float64 value, as Go's
`fmt.Sprintf` with the `%.2f` verb: the exact binary value is correctly
rounded to two decimal places (ties to even) and printed with a sign, the
integer digits, a point and two fraction digits. -/
def formatF2 (x : ℚ) : String :=
  let n := (roundTE (|x| * 100)).toNat
  (if x < 0 then "-" else "") ++ String.mk (natDigits (n / 100) ++ '.' :: pad2 (n % 100))

/-- centsToDecimalString: `fmt.Sprintf` of `float64(cents)/100` with `%.2f`,
through the binary64 model. -/
def centsToDecimalString (cents : ℤ) : String :=
  formatF2 (goDiv100 (goFloatOfInt cents))

/-- Money.FormatWithSymbol: currency symbol followed by the two-decimal
amount; also Money.String and the JSON serialization of Money. -/
def Money.formatWithSymbol (m : Money) : String :=
  currencySymbol m.currency ++ centsToDecimalString m.cents

/-- Whitespace class of `strings.TrimSpace` (`unicode.IsSpace`): the full
Unicode White_Space set, by code point: U+0009-U+000D, U+0020, U+0085,
U+00A0, U+1680, U+2000-U+200A, U+2028, U+2029, U+202F, U+205F, U+3000. -/
def isGoSpace (c : Char) : Bool :=
  (9 ≤ c.toNat ∧ c.toNat ≤ 13) ∨ c.toNat = 32 ∨ c.toNat = 133
    ∨ c.toNat = 160 ∨ c.toNat = 5760 ∨ (8192 ≤ c.toNat ∧ c.toNat ≤ 8202)
    ∨ c.toNat = 8232 ∨ c.toNat = 8233 ∨ c.toNat = 8239 ∨ c.toNat = 8287
    ∨ c.toNat = 12288

/-- Model of `strings.TrimSpace` on rune lists. -/
def trimChars (cs : List Char) : List Char :=
  ((cs.dropWhile isGoSpace).reverse.dropWhile isGoSpace).reverse

/-- Model of `Money.UnmarshalJSON` after the JSON string layer, starting from
a zero Money value (`var m Money`): trim, detect the currency by its leading
symbol (leaving the zero currency when no symbol matches), trim again, parse
the remainder as a decimal, store the cents and validate. -/
def parseMoneyChars (cs : List Char) : Except String Money :=
  let v := trimChars cs
  let p : Currency × List Char :=
    match v with
    | [] => ("", [])
    | c :: rest =>
      if c = '$' then (USD, trimChars rest)
      else if c = '₾' then (GEL, trimChars rest)
      else ("", trimChars (c :: rest))
  match parseGoDecimalChars p.2 with
  | none => .error "invalid amount"
  | some d =>
    let m : Money := { cents := decimalToCents d, currency := p.1 }
    match m.validate with
    | some e => .error e
    | none => .ok m

/-- Money parsing at the string level. -/
def parseMoneyString (s : String) : Except String Money :=
  parseMoneyChars s.data

/-- BillStatus is a Go string type; its two constants are "OPEN" and
"CLOSED". -/
abbrev BillStatus := String

def BillStatusOpen : BillStatus := "OPEN"

def BillStatusClosed : BillStatus := "CLOSED"

/-- LineItem (bills/workflow/types.go); timestamps are UTC instants in
nanoseconds. -/
structure LineItem where
  id : String
  amount : Money
  createdAt : ℤ
deriving DecidableEq

/-- Bill (bills/workflow/types.go). -/
structure Bill where
  id : String
  customerID : ℤ
  status : BillStatus
  currency : Currency
  createdAt : ℤ
  closedAt : Option ℤ
  lineItems : List LineItem
  total : Money
deriving DecidableEq

/-- The Bill record as initialized at the top of BillingPeriodWorkflow. -/
def initBill (billID : String) (customerID : ℤ) (currency : Currency)
    (now : ℤ) : Bill :=
  { id := billID, customerID := customerID, status := BillStatusOpen,
    currency := currency, createdAt := now, closedAt := none,
    lineItems := [], total := Money.new 0 currency }

/-- The three event sources multiplexed by the workflow's selector: the
add-line-item signal, the close-bill signal (carrying the caller's
timestamp) and the period-end timer (carrying the workflow clock at the
moment it fires). -/
inductive WorkflowEvent where
  | addLineItem (item : LineItem)
  | closeBill (closedAt : ℤ)
  | periodTimer (now : ℤ)
deriving DecidableEq

/-- One selector callback of BillingPeriodWorkflow. The add-item handler
appends the item first and only then tries the same-currency addition,
leaving the total unchanged when `Add` fails; both close paths are guarded
by the already-closed check. The email activity mutates nothing. -/
def handleEvent (bill : Bill) : WorkflowEvent → Bill
  | .addLineItem item =>
    if bill.status = BillStatusClosed then bill
    else
      let bill1 := { bill with lineItems := bill.lineItems ++ [item] }
      match bill1.total.add item.amount with
      | .error _ => bill1
      | .ok newTotal => { bill1 with total := newTotal }
  | .closeBill t =>
    if bill.status = BillStatusClosed then bill
    else { bill with status := BillStatusClosed, closedAt := some t }
  | .periodTimer now =>
    if bill.status = BillStatusClosed then bill
    else { bill with status := BillStatusClosed, closedAt := some now }

/-- The workflow main loop: handle one delivered event, then exit when the
bill has become closed (events delivered after that point are never
processed by the machine). -/
def runEvents (bill : Bill) : List WorkflowEvent → Bill
  | [] => bill
  | e :: es =>
    let b := handleEvent bill e
    if b.status = BillStatusClosed then b else runEvents b es

/-- Sum of the cent amounts of a list of line items. -/
def sumCents (items : List LineItem) : ℤ :=
  (items.map (fun i => i.amount.cents)).sum

/-- Temporal workflow execution lifecycle states
(enums.WORKFLOW_EXECUTION_STATUS_*). -/
inductive ExecStatus where
  | running
  | completed
  | failed
  | canceled
  | terminated
  | continuedAsNew
  | timedOut
deriving DecidableEq

/-- Outcome of the dispatcher's snapshot query against one machine:
success, a not-found query error, another query error, or a failure to
decode the response. -/
inductive QueryOutcome where
  | ok
  | qNotFound
  | qFailed
  | decodeFailed
deriving DecidableEq

/-- The error kinds the service surfaces (bills/errors): encore NotFound,
generic internal, and bad request. -/
inductive ApiError where
  | notFound
  | internalErr
  | badRequest
deriving DecidableEq

/-- One workflow execution as the dispatcher sees it: its lifecycle status,
the indexed CustomerID search attribute, the Bill its query handler would
return, and whether the query itself succeeds. -/
structure Machine where
  status : ExecStatus
  attrCustomerID : ℤ
  query : QueryOutcome
  bill : Bill
deriving DecidableEq

/-- The orchestration substrate as the dispatcher observes it: the named
workflow executions, keyed by workflow id. -/
structure Env where
  machines : List (String × Machine)
deriving DecidableEq

/-- Service.getBill: describe the execution (unknown id surfaces as
not-found); a machine whose status is not RUNNING is answered with
`SafeInternalError(nil, "workflow is not active")`, an internal error; then
query the snapshot (a not-found query error maps to not-found, other
failures to internal); finally a customer mismatch is deliberately
collapsed into not-found. -/
def getBill (env : Env) (billID : String) (customerID : ℤ) :
    Except ApiError Bill :=
  match env.machines.lookup billID with
  | none => .error .notFound
  | some mc =>
    if mc.status ≠ .running then .error .internalErr
    else
      match mc.query with
      | .qNotFound => .error .notFound
      | .qFailed => .error .internalErr
      | .decodeFailed => .error .internalErr
      | .ok =>
        if mc.bill.customerID ≠ customerID then .error .notFound
        else .ok mc.bill

/-- Service.ListBills visibility query: all executions of the workflow type,
restricted by the indexed CustomerID attribute only when the parameter is
non-zero. -/
def listWorkflows (env : Env) (customerID : ℤ) : List (String × Machine) :=
  if customerID ≠ 0 then
    env.machines.filter (fun pr => pr.2.attrCustomerID = customerID)
  else env.machines

/-- Service.ListBills: enumerate, fetch every bill through getBill with the
request's customer id (zero when absent), drop failures, then filter by the
requested status when one is given. -/
def listBills (env : Env) (customerID : ℤ) (status : String) : List Bill :=
  (listWorkflows env customerID).filterMap (fun pr =>
    match getBill env pr.1 customerID with
    | .error _ => none
    | .ok bill =>
      if status ≠ "" ∧ bill.status ≠ status then none else some bill)

/-- The result set claim C3 describes, written from the claim's words: the
snapshots of the running machines — restricted to the given customer when a
non-zero customer id is provided, all running machines otherwise — minus
machines whose snapshot query fails, filtered by the requested status. -/
def claimedListBills (env : Env) (customerID : ℤ) (status : String) : List Bill :=
  (env.machines.filter (fun pr =>
    (customerID = 0 ∨ pr.2.attrCustomerID = customerID) ∧
      pr.2.status = .running ∧ pr.2.query = .ok ∧
      (status = "" ∨ pr.2.bill.status = status))).map (fun pr => pr.2.bill)

/-- A civil UTC date-time, the fields Go's `time` package exposes through
`Date()` and `Clock()`. -/
structure GoTime where
  year : ℤ
  month : ℤ
  day : ℤ
  hour : ℤ
  minute : ℤ
  second : ℤ
  nsec : ℤ
deriving DecidableEq

/-- Days from the epoch 1970-01-01 of a civil date (proleptic Gregorian),
the standard days-from-civil computation; models the absolute positioning
`time.Date` gives to a UTC instant. -/
def daysFromCivil (y m d : ℤ) : ℤ :=
  let y1 := if m ≤ 2 then y - 1 else y
  let era := Int.fdiv y1 400
  let yoe := y1 - era * 400
  let mp := Int.emod (m + 9) 12
  let doy := Int.fdiv (153 * mp + 2) 5 + d - 1
  let doe := yoe * 365 + Int.fdiv yoe 4 - Int.fdiv yoe 100 + doy
  era * 146097 + doe - 719468

/-- UTC instant of a civil date-time in nanoseconds since the epoch; models
how `time.Time` values compare and subtract. -/
def toNanos (t : GoTime) : ℤ :=
  ((daysFromCivil t.year t.month t.day * 24 + t.hour) * 3600 +
      t.minute * 60 + t.second) * 1000000000 + t.nsec

/-- First instant of a given civil month. -/
def monthStart (y m : ℤ) : GoTime :=
  { year := y, month := m, day := 1, hour := 0, minute := 0, second := 0,
    nsec := 0 }

/-- calculateTimeUntilNextMonth (bills/workflow/utils.go): take the current
UTC year and month, step the month and wrap past December by hand, build
the first of that month at midnight UTC with `time.Date`, and subtract
`now`. The result is a `time.Duration` in nanoseconds. -/
def calculateTimeUntilNextMonth (now : GoTime) : ℤ :=
  let currentYear := now.year
  let currentMonth := now.month
  let nextMonth := currentMonth + 1
  let p : ℤ × ℤ :=
    if nextMonth > 12 then (1, currentYear + 1) else (nextMonth, currentYear)
  toNanos (monthStart p.2 p.1) - toNanos now

/-- The boundary instant claim C6 describes, written independently of the
source's wrap logic: linearize year and month into a month count, step it
by one, and read the first instant of that month back. -/
def firstInstantOfNextMonth (now : GoTime) : ℤ :=
  let k := 12 * now.year + (now.month - 1) + 1
  toNanos (monthStart (k / 12) (k % 12 + 1))

theorem wrap64_eq_self {n : ℤ} (h1 : -(2 ^ 63) ≤ n) (h2 : n < 2 ^ 63) :
    wrap64 n = n := by
  unfold wrap64
  have h64 : (2 : ℤ) ^ 64 = 18446744073709551616 := by norm_num
  have h63 : (2 : ℤ) ^ 63 = 9223372036854775808 := by norm_num
  rw [h64, h63]
  rw [h63] at h1 h2
  omega

theorem roundHalfAway_intCast (n : ℤ) : roundHalfAway (n : ℚ) = n := by
  unfold roundHalfAway
  have hhalf : ⌊(1 / 2 : ℚ)⌋ = 0 := by norm_num
  rcases le_or_lt 0 ((n : ℚ)) with h | h
  · rw [if_pos h, Int.floor_int_add, hhalf, add_zero]
  · rw [if_neg (not_le.mpr h)]
    have hc : -(n : ℚ) + 1 / 2 = ((-n : ℤ) : ℚ) + 1 / 2 := by push_cast; ring
    rw [hc, Int.floor_int_add, hhalf, add_zero, neg_neg]

theorem decimalToCents_zero : decimalToCents 0 = 0 := by
  have h : roundHalfAway ((0 : ℚ) * 100) = 0 := by
    simpa using roundHalfAway_intCast 0
  unfold decimalToCents
  rw [h]
  exact wrap64_eq_self (by norm_num) (by norm_num)

/-- C6: for every valid UTC civil instant, the period-end timer delay
computed by calculateTimeUntilNextMonth equals the first instant of the
next calendar month (UTC) minus that instant — the timer fires at 00:00:00
on the 1st of the following month — and for a December start the boundary
is January 1 of the following year. -/
theorem c6_timer_next_month (now : GoTime) (h1 : 1 ≤ now.month)
    (h2 : now.month ≤ 12) :
    calculateTimeUntilNextMonth now = firstInstantOfNextMonth now - toNanos now
      ∧ (now.month = 12 →
        calculateTimeUntilNextMonth now
          = toNanos (monthStart (now.year + 1) 1) - toNanos now) := by
  have key : (if now.month + 1 > 12 then ((1 : ℤ), now.year + 1)
      else (now.month + 1, now.year))
      = ((12 * now.year + (now.month - 1) + 1) % 12 + 1,
        (12 * now.year + (now.month - 1) + 1) / 12) := by
    by_cases hm : now.month + 1 > 12
    · rw [if_pos hm]
      have e1 : (12 * now.year + (now.month - 1) + 1) % 12 + 1 = 1 := by omega
      have e2 : (12 * now.year + (now.month - 1) + 1) / 12 = now.year + 1 := by
        omega
      rw [e1, e2]
    · rw [if_neg hm]
      have e1 : (12 * now.year + (now.month - 1) + 1) % 12 + 1 = now.month + 1 := by
        omega
      have e2 : (12 * now.year + (now.month - 1) + 1) / 12 = now.year := by omega
      rw [e1, e2]
  constructor
  · simp [calculateTimeUntilNextMonth, firstInstantOfNextMonth, key]
  · intro hm
    simp [calculateTimeUntilNextMonth, hm]

/-- Witness for C6 at a concrete December instant (2025-12-15 10:30 UTC). -/
theorem c6_timer_next_month_witness :
    (1 ≤ (GoTime.mk 2025 12 15 10 30 0 0).month
        ∧ (GoTime.mk 2025 12 15 10 30 0 0).month ≤ 12)
      ∧ (calculateTimeUntilNextMonth (GoTime.mk 2025 12 15 10 30 0 0)
            = firstInstantOfNextMonth (GoTime.mk 2025 12 15 10 30 0 0)
              - toNanos (GoTime.mk 2025 12 15 10 30 0 0)
          ∧ ((GoTime.mk 2025 12 15 10 30 0 0).month = 12 →
            calculateTimeUntilNextMonth (GoTime.mk 2025 12 15 10 30 0 0)
              = toNanos (monthStart 2026 1)
                - toNanos (GoTime.mk 2025 12 15 10 30 0 0))) :=
  ⟨by decide, c6_timer_next_month (GoTime.mk 2025 12 15 10 30 0 0)
    (by decide) (by decide)⟩

/-- C7: once a bill is CLOSED no handler changes any field — every event is
dropped by the closed guard — and from an open state a close with timestamp
T1 followed by any further events (a second close with T2, add-item events,
anything else) leaves exactly the first close's effect: status CLOSED,
closed_at = T1, line items and total untouched. -/
theorem c7_closed_frame :
    (∀ (b : Bill) (e : WorkflowEvent), b.status = BillStatusClosed →
        handleEvent b e = b)
      ∧ (∀ (b : Bill) (t1 : ℤ) (rest : List WorkflowEvent),
          b.status ≠ BillStatusClosed →
          runEvents b (.closeBill t1 :: rest)
            = { b with status := BillStatusClosed, closedAt := some t1 }) := by
  constructor
  · intro b e h
    cases e <;> simp [handleEvent, h]
  · intro b t1 rest hb
    simp [runEvents, handleEvent, hb]

/-- Witness for C7: a concrete closed bill absorbs an add-item event, and a
concrete open bill hit by close(1), close(2), add-item keeps closed_at = 1
and its line items and total. -/
theorem c7_closed_frame_witness :
    ((Bill.mk "b" 1 BillStatusClosed USD 0 (some 9) [] (Money.mk 5 USD)).status
        = BillStatusClosed
      ∧ handleEvent
          (Bill.mk "b" 1 BillStatusClosed USD 0 (some 9) [] (Money.mk 5 USD))
          (.addLineItem (LineItem.mk "i" (Money.mk 3 USD) 0))
        = Bill.mk "b" 1 BillStatusClosed USD 0 (some 9) [] (Money.mk 5 USD))
      ∧ ((Bill.mk "b" 1 BillStatusOpen USD 0 none [] (Money.mk 5 USD)).status
          ≠ BillStatusClosed
        ∧ runEvents (Bill.mk "b" 1 BillStatusOpen USD 0 none [] (Money.mk 5 USD))
            [.closeBill 1, .closeBill 2,
              .addLineItem (LineItem.mk "i" (Money.mk 3 USD) 0)]
          = Bill.mk "b" 1 BillStatusClosed USD 0 (some 1) [] (Money.mk 5 USD)) :=
  ⟨⟨by decide,
    c7_closed_frame.1 (Bill.mk "b" 1 BillStatusClosed USD 0 (some 9) [] (Money.mk 5 USD))
      (.addLineItem (LineItem.mk "i" (Money.mk 3 USD) 0)) (by decide)⟩,
    ⟨by decide,
      c7_closed_frame.2 (Bill.mk "b" 1 BillStatusOpen USD 0 none [] (Money.mk 5 USD))
        1 [.closeBill 2, .addLineItem (LineItem.mk "i" (Money.mk 3 USD) 0)]
        (by decide)⟩⟩

/-- C1 (failing run): a USD bill that receives an add-item event carrying a
GEL amount while OPEN records the line item but leaves the total at 0, so
after the handler the total no longer equals the sum of the recorded line
items' amounts — the repository's own workflow test expects such an item to
be skipped entirely. -/
theorem c1_total_invariant_failing_run :
    (runEvents (initBill "bill-123" 456 USD 0)
        [.addLineItem (LineItem.mk "gel-item" (Money.mk 10000 GEL) 0)]).total.cents
        = 0
      ∧ (runEvents (initBill "bill-123" 456 USD 0)
          [.addLineItem (LineItem.mk "gel-item" (Money.mk 10000 GEL) 0)]).lineItems
        = [LineItem.mk "gel-item" (Money.mk 10000 GEL) 0]
      ∧ sumCents [LineItem.mk "gel-item" (Money.mk 10000 GEL) 0] = 10000 := by
  refine ⟨?_, ?_, ?_⟩ <;>
    simp [runEvents, handleEvent, initBill, Money.new, Money.add, sumCents,
      decimalToCents_zero, BillStatusOpen, BillStatusClosed, USD, GEL]

/-- A non-running (completed) machine registered under id "b1" for customer
7, used by the C2 theorems. -/
def envNotRunning : Env :=
  Env.mk [("b1", Machine.mk .completed 7 .ok
    (Bill.mk "b1" 7 BillStatusClosed USD 0 (some 5) [] (Money.mk 0 USD)))]

/-- C2 (counterexample): the machine "b1" exists but is not running, and the
dispatcher answers the snapshot request with an internal error, not with the
not-found error the claim requires. -/
theorem c2_nonrunning_counterexample :
    getBill envNotRunning "b1" 7 = .error .internalErr
      ∧ ApiError.internalErr ≠ ApiError.notFound := by
  constructor
  · simp [getBill, envNotRunning]
  · decide

/-- C2 (amended): for every snapshot request through the dispatcher, if the
target machine exists but its lifecycle state is not running, getBill
returns a generic internal error (from SafeInternalError with the message
"workflow is not active"), not a not-found error. -/
theorem c2_nonrunning_internal (env : Env) (billID : String) (customerID : ℤ)
    (mc : Machine) (hfind : env.machines.lookup billID = some mc)
    (hst : mc.status ≠ .running) :
    getBill env billID customerID = .error .internalErr := by
  simp [getBill, hfind, hst]

/-- Witness for C2 at the concrete environment of the counterexample. -/
theorem c2_nonrunning_internal_witness :
    (envNotRunning.machines.lookup "b1"
        = some (Machine.mk .completed 7 .ok
          (Bill.mk "b1" 7 BillStatusClosed USD 0 (some 5) [] (Money.mk 0 USD)))
      ∧ (Machine.mk .completed 7 .ok
          (Bill.mk "b1" 7 BillStatusClosed USD 0 (some 5) [] (Money.mk 0 USD))).status
        ≠ ExecStatus.running)
      ∧ getBill envNotRunning "b1" 99 = .error .internalErr :=
  ⟨⟨by decide, by decide⟩,
    c2_nonrunning_internal envNotRunning "b1" 99
      (Machine.mk .completed 7 .ok
        (Bill.mk "b1" 7 BillStatusClosed USD 0 (some 5) [] (Money.mk 0 USD)))
      (by decide) (by decide)⟩


theorem lookup_eq_of_mem_nodup {α β : Type} [BEq α] [LawfulBEq α]
    {l : List (α × β)} {k : α} {v : β} (hmem : (k, v) ∈ l)
    (hnd : (l.map Prod.fst).Nodup) : l.lookup k = some v := by
  induction l with
  | nil => cases hmem
  | cons hd t ih =>
    obtain ⟨a, b⟩ := hd
    rw [List.map_cons, List.nodup_cons] at hnd
    rcases List.mem_cons.mp hmem with heq | hmem2
    · injection heq with h1 h2
      subst h1
      subst h2
      simp [List.lookup]
    · have hk : (k == a) = false := by
        apply beq_eq_false_iff_ne.mpr
        intro hak
        subst hak
        exact hnd.1 (List.mem_map.mpr ⟨(k, v), hmem2, rfl⟩)
      simp only [List.lookup, hk]
      exact ih hmem2 hnd.2

theorem filterMap_guard {α β : Type} (p : α → Prop) [DecidablePred p]
    (f : α → β) (l : List α) :
    l.filterMap (fun a => if p a then some (f a) else none)
      = (l.filter (fun a => decide (p a))).map f := by
  induction l with
  | nil => rfl
  | cons h t ih => by_cases hp : p h <;> simp [hp, ih]

/-- A single running machine belonging to customer 7, used by the C3
counterexample: with no customer id the claim expects its snapshot, the
code returns the empty list. -/
def envListOne : Env :=
  Env.mk [("w1", Machine.mk .running 7 .ok
    (Bill.mk "w1" 7 BillStatusOpen USD 0 none [] (Money.mk 0 USD)))]

/-- C3 (counterexample): with one running, queryable machine for customer 7
and a request carrying no customer id (zero), ListBills returns no bills at
all — every bill of a non-zero customer is dropped by getBill's ownership
check against customer 0 — while the claim's result set contains the
machine's snapshot. -/
theorem c3_list_counterexample :
    listBills envListOne 0 "" = []
      ∧ claimedListBills envListOne 0 ""
        = [Bill.mk "w1" 7 BillStatusOpen USD 0 none [] (Money.mk 0 USD)] := by
  constructor
  · simp [listBills, listWorkflows, getBill, envListOne]
  · simp [claimedListBills, envListOne]

/-- C3 (amended): when every machine's indexed customer attribute agrees
with its bill's customer id (as CreateBill guarantees, both come from the
same request field) and workflow ids are unique, ListBills returns exactly
the snapshots of the running machines whose bill belongs to the request's
customer id — which is zero when no customer id is provided, so bills of
any non-zero customer are then dropped by the ownership check — minus
machines whose snapshot query fails, filtered by the requested status. -/
theorem c3_list_amended (env : Env) (customerID : ℤ) (status : String)
    (hattr : ∀ pr ∈ env.machines, pr.2.attrCustomerID = pr.2.bill.customerID)
    (hnd : (env.machines.map Prod.fst).Nodup) :
    listBills env customerID status
      = (env.machines.filter (fun pr =>
          decide (pr.2.status = ExecStatus.running ∧ pr.2.query = QueryOutcome.ok
            ∧ pr.2.bill.customerID = customerID
            ∧ (status = "" ∨ pr.2.bill.status = status)))).map
        (fun pr => pr.2.bill) := by
  have hsub : ∀ pr ∈ listWorkflows env customerID, pr ∈ env.machines := by
    intro pr hpr
    unfold listWorkflows at hpr
    by_cases hc : customerID ≠ 0
    · rw [if_pos hc] at hpr
      exact List.mem_of_mem_filter hpr
    · rw [if_neg hc] at hpr
      exact hpr
  have hpt : ∀ pr ∈ listWorkflows env customerID,
      (match getBill env pr.1 customerID with
        | .error _ => none
        | .ok bill =>
          if status ≠ "" ∧ bill.status ≠ status then none else some bill)
      = (if (pr.2.status = ExecStatus.running ∧ pr.2.query = QueryOutcome.ok
            ∧ pr.2.bill.customerID = customerID
            ∧ (status = "" ∨ pr.2.bill.status = status))
          then some pr.2.bill else none) := by
    intro pr hpr
    obtain ⟨k, v⟩ := pr
    have hlk : env.machines.lookup k = some v :=
      lookup_eq_of_mem_nodup (hsub _ hpr) hnd
    simp only [getBill, hlk]
    by_cases hrun : v.status = ExecStatus.running
    · cases hq : v.query with
      | ok =>
        by_cases hcust : v.bill.customerID = customerID
        · by_cases hst : status = ""
          · simp [hrun, hcust, hst]
          · by_cases hbs : v.bill.status = status
            · simp [hrun, hcust, hst, hbs]
            · simp [hrun, hcust, hst, hbs]
        · simp [hrun, hcust]
      | qNotFound => simp [hrun, hq]
      | qFailed => simp [hrun, hq]
      | decodeFailed => simp [hrun, hq]
    · simp [hrun]
  unfold listBills
  rw [List.filterMap_congr hpt, filterMap_guard]
  congr 1
  unfold listWorkflows
  by_cases hc : customerID ≠ 0
  · rw [if_pos hc, List.filter_filter]
    apply List.filter_congr
    intro pr hpr
    have ha := hattr pr hpr
    by_cases hcnd : pr.2.status = ExecStatus.running
        ∧ pr.2.query = QueryOutcome.ok
        ∧ pr.2.bill.customerID = customerID
        ∧ (status = "" ∨ pr.2.bill.status = status)
    · have hacid : pr.2.attrCustomerID = customerID := by
        rw [ha]
        exact hcnd.2.2.1
      simp [hcnd, hacid]
    · simp [hcnd]
  · rw [if_neg hc]

/-- Two running machines for customers 7 and 8, used by the C3 witness. -/
def envListTwo : Env :=
  Env.mk
    [("w1", Machine.mk .running 7 .ok
        (Bill.mk "w1" 7 BillStatusOpen USD 0 none [] (Money.mk 0 USD))),
      ("w2", Machine.mk .running 8 .ok
        (Bill.mk "w2" 8 BillStatusOpen USD 0 none [] (Money.mk 0 USD)))]

/-- Witness for C3 at a concrete two-machine environment and customer 7. -/
theorem c3_list_amended_witness :
    (∀ pr ∈ envListTwo.machines, pr.2.attrCustomerID = pr.2.bill.customerID)
      ∧ (envListTwo.machines.map Prod.fst).Nodup
      ∧ listBills envListTwo 7 ""
        = (envListTwo.machines.filter (fun pr =>
            decide (pr.2.status = ExecStatus.running
              ∧ pr.2.query = QueryOutcome.ok
              ∧ pr.2.bill.customerID = 7
              ∧ ("" = "" ∨ pr.2.bill.status = "")))).map
          (fun pr => pr.2.bill) :=
  ⟨by decide, by decide, c3_list_amended envListTwo 7 "" (by decide) (by decide)⟩

theorem floor_half_q : ⌊(2⁻¹ : ℚ)⌋ = 0 := by norm_num

/-- Cent amount an event tries to add to the running total (zero for close
and timer events). -/
def eventCents : WorkflowEvent → ℤ
  | .addLineItem item => item.amount.cents
  | .closeBill _ => 0
  | .periodTimer _ => 0

/-- Total cent amount carried by a list of events. -/
def eventsSum (events : List WorkflowEvent) : ℤ :=
  (events.map eventCents).sum

theorem eventsSum_nonneg {events : List WorkflowEvent}
    (h : ∀ item, WorkflowEvent.addLineItem item ∈ events →
      0 ≤ item.amount.cents) :
    0 ≤ eventsSum events := by
  induction events with
  | nil => simp [eventsSum]
  | cons e es ih =>
    have hes : 0 ≤ eventsSum es :=
      ih (fun item hm => h item (List.mem_cons_of_mem _ hm))
    have he : 0 ≤ eventCents e := by
      cases e with
      | addLineItem item => exact h item (List.mem_cons_self _ _)
      | closeBill t => simp [eventCents]
      | periodTimer t => simp [eventCents]
    have : eventsSum (e :: es) = eventCents e + eventsSum es := by
      simp [eventsSum]
    rw [this]
    linarith

theorem runEvents_total_bounds (events : List WorkflowEvent) :
    ∀ (bill : Bill), 0 ≤ bill.total.cents →
      (∀ item, WorkflowEvent.addLineItem item ∈ events →
        0 ≤ item.amount.cents) →
      bill.total.cents + eventsSum events < 2 ^ 63 →
      0 ≤ (runEvents bill events).total.cents
        ∧ (runEvents bill events).total.cents
          ≤ bill.total.cents + eventsSum events := by
  induction events with
  | nil =>
    intro bill h0 _ _
    refine ⟨h0, ?_⟩
    simp [runEvents, eventsSum]
  | cons e es ih =>
    intro bill h0 hitems hbound
    have hes0 : 0 ≤ eventsSum es :=
      eventsSum_nonneg (fun item hm => hitems item (List.mem_cons_of_mem _ hm))
    have hsum : eventsSum (e :: es) = eventCents e + eventsSum es := by
      simp [eventsSum]
    rw [hsum] at hbound ⊢
    have hstep : 0 ≤ (handleEvent bill e).total.cents
        ∧ (handleEvent bill e).total.cents
          ≤ bill.total.cents + eventCents e := by
      cases e with
      | addLineItem item =>
        have hi : 0 ≤ item.amount.cents := hitems item (List.mem_cons_self _ _)
        have hec : eventCents (.addLineItem item) = item.amount.cents := rfl
        rw [hec]
        by_cases hcl : bill.status = BillStatusClosed
        · simp only [handleEvent, if_pos hcl]
          exact ⟨h0, by linarith⟩
        · simp only [handleEvent, if_neg hcl]
          unfold Money.add
          by_cases hcur : bill.total.currency ≠ item.amount.currency
          · rw [if_pos hcur]
            exact ⟨h0, by linarith⟩
          · rw [if_neg hcur]
            have hw : wrap64 (bill.total.cents + item.amount.cents)
                = bill.total.cents + item.amount.cents :=
              wrap64_eq_self (by linarith) (by linarith)
            simp only [hw]
            exact ⟨by linarith, by linarith⟩
      | closeBill t =>
        have hec : eventCents (.closeBill t) = 0 := rfl
        rw [hec]
        by_cases hcl : bill.status = BillStatusClosed
        · simp only [handleEvent, if_pos hcl]
          exact ⟨h0, by linarith⟩
        · simp only [handleEvent, if_neg hcl]
          exact ⟨h0, by linarith⟩
      | periodTimer t =>
        have hec : eventCents (.periodTimer t) = 0 := rfl
        rw [hec]
        by_cases hcl : bill.status = BillStatusClosed
        · simp only [handleEvent, if_pos hcl]
          exact ⟨h0, by linarith⟩
        · simp only [handleEvent, if_neg hcl]
          exact ⟨h0, by linarith⟩
    simp only [runEvents]
    by_cases hcl2 : (handleEvent bill e).status = BillStatusClosed
    · rw [if_pos hcl2]
      exact ⟨hstep.1, by linarith [hstep.2]⟩
    · rw [if_neg hcl2]
      have hrec := ih (handleEvent bill e) hstep.1
        (fun item hm => hitems item (List.mem_cons_of_mem _ hm))
        (by linarith [hstep.2])
      exact ⟨hrec.1, by linarith [hrec.2, hstep.2]⟩

theorem validate_none_iff (m : Money) :
    m.validate = none
      ↔ ((m.currency = USD ∨ m.currency = GEL) ∧ 0 ≤ m.cents) := by
  unfold Money.validate
  split_ifs with h1 h2
  · constructor
    · intro h
      exact absurd h (by simp)
    · rintro ⟨hor, _⟩
      exact absurd hor (by tauto)
  · constructor
    · intro h
      exact absurd h (by simp)
    · rintro ⟨_, hge⟩
      omega
  · constructor
    · intro _
      exact ⟨by tauto, by omega⟩
    · intro _
      rfl

theorem roundHalfAway_nonneg {q : ℚ} (h : 0 ≤ q) : 0 ≤ roundHalfAway q := by
  unfold roundHalfAway
  rw [if_pos h]
  exact Int.le_floor.mpr (by push_cast; linarith)

theorem roundHalfAway_le_half {q : ℚ} (h : 0 ≤ q) :
    (roundHalfAway q : ℚ) ≤ q + 1 / 2 := by
  unfold roundHalfAway
  rw [if_pos h]
  exact_mod_cast Int.floor_le _

theorem decimalToCents_nonneg {q : ℚ} (h0 : 0 ≤ q)
    (hb : q * 100 + 1 / 2 < 2 ^ 63) : 0 ≤ decimalToCents q := by
  unfold decimalToCents
  have hq : (0 : ℚ) ≤ q * 100 := by positivity
  have h1 : 0 ≤ roundHalfAway (q * 100) := roundHalfAway_nonneg hq
  have h2 : (roundHalfAway (q * 100) : ℚ) ≤ q * 100 + 1 / 2 :=
    roundHalfAway_le_half hq
  have h3 : roundHalfAway (q * 100) < 2 ^ 63 := by
    have hlt : (roundHalfAway (q * 100) : ℚ) < 2 ^ 63 := lt_of_le_of_lt h2 hb
    exact_mod_cast hlt
  rw [wrap64_eq_self (by linarith) h3]
  exact h1

/-- C5 (counterexample): two individually valid Money values (cents
2 ^ 62 each, USD) whose same-currency addition wraps in int64 and produces
an emitted Money value with negative cents, refuting the unconditional
claim. -/
theorem c5_nonneg_counterexample :
    (Money.mk 4611686018427387904 USD).validate = none
      ∧ Money.add (Money.mk 4611686018427387904 USD)
          (Money.mk 4611686018427387904 USD)
        = .ok (Money.mk (-9223372036854775808) USD)
      ∧ (-9223372036854775808 : ℤ) < 0 := by
  refine ⟨by decide, ?_, by decide⟩
  simp [Money.add, wrap64]

/-- C5 (amended): every Money value the engine emits has non-negative cents
provided the int64 arithmetic does not overflow: (1) validated construction
always, (2) same-currency addition of non-negative operands whose sum stays
below 2 ^ 63, (3) conversion at the configured rates from a non-negative
amount of at most 2 ^ 61 cents, and (4) the running total of a billing
machine for any event sequence of non-negative item amounts whose total
stays below 2 ^ 63. -/
theorem c5_nonneg_amended :
    (∀ (s : String) (c : Currency) (m : Money),
        NewFromString s c = .ok m → 0 ≤ m.cents)
      ∧ (∀ (a b m : Money), 0 ≤ a.cents → 0 ≤ b.cents →
          a.cents + b.cents < 2 ^ 63 → a.add b = .ok m → 0 ≤ m.cents)
      ∧ (∀ (m : Money) (c : Currency) (m2 : Money), 0 ≤ m.cents →
          m.cents ≤ 2 ^ 61 → m.convertTo c configRates = .ok m2 →
          0 ≤ m2.cents)
      ∧ (∀ (billID : String) (customerID : ℤ) (currency : Currency)
          (now : ℤ) (events : List WorkflowEvent),
          (∀ item, WorkflowEvent.addLineItem item ∈ events →
            0 ≤ item.amount.cents) →
          eventsSum events < 2 ^ 63 →
          0 ≤ (runEvents (initBill billID customerID currency now)
            events).total.cents) := by
  refine ⟨?_, ?_, ?_, ?_⟩
  · intro s c m h
    unfold NewFromString at h
    cases hp : parseGoDecimal s with
    | none => rw [hp] at h; cases h
    | some d =>
      rw [hp] at h
      cases hv : (Money.new d c).validate with
      | some e =>
        simp only [hv] at h
        cases h
      | none =>
        simp only [hv] at h
        injection h with h2
        subst h2
        exact ((validate_none_iff _).mp hv).2
  · intro a b m h0a h0b hlt hadd
    unfold Money.add at hadd
    by_cases hcur : a.currency ≠ b.currency
    · rw [if_pos hcur] at hadd
      cases hadd
    · rw [if_neg hcur] at hadd
      injection hadd with h2
      subst h2
      simp only []
      rw [wrap64_eq_self (by linarith) hlt]
      linarith
  · intro m c m2 h0 hle hconv
    have hcast : ((m.cents : ℚ)) ≤ ((2 : ℚ) ^ 61) := by exact_mod_cast hle
    have hcast0 : (0 : ℚ) ≤ (m.cents : ℚ) := by exact_mod_cast h0
    unfold Money.convertTo at hconv
    split_ifs at hconv with h1 h2 h3
    · injection hconv with h4
      subst h4
      exact h0
    · injection hconv with h4
      subst h4
      apply decimalToCents_nonneg
      · unfold centsToDecimal configRates
        positivity
      · unfold centsToDecimal configRates
        simp only []
        have he : (m.cents : ℚ) / 100 * (27777 / 10000) * 100
            = (m.cents : ℚ) * (27777 / 10000) := by ring
        rw [he]
        nlinarith [hcast, hcast0]
    · injection hconv with h4
      subst h4
      apply decimalToCents_nonneg
      · unfold centsToDecimal configRates
        positivity
      · unfold centsToDecimal configRates
        simp only []
        have he : (m.cents : ℚ) / 100 * (3601 / 10000) * 100
            = (m.cents : ℚ) * (3601 / 10000) := by ring
        rw [he]
        nlinarith [hcast, hcast0]
  · intro billID customerID currency now events hitems hbound
    have h0 : (initBill billID customerID currency now).total.cents = 0 := by
      simp [initBill, Money.new, decimalToCents_zero]
    exact (runEvents_total_bounds events _ (by rw [h0]) hitems
      (by rw [h0]; linarith)).1

/-- Witness for C5 at concrete values: construction of $1.00, the addition
1¢ + 2¢, the conversion of $1.00 to GEL at the configured rates, and a
one-item workflow run. -/
theorem c5_nonneg_amended_witness :
    (NewFromString "1.00" USD = .ok (Money.mk 100 USD)
        ∧ 0 ≤ (Money.mk 100 USD).cents)
      ∧ (Money.add (Money.mk 1 USD) (Money.mk 2 USD) = .ok (Money.mk 3 USD)
        ∧ 0 ≤ (Money.mk 3 USD).cents)
      ∧ (Money.convertTo (Money.mk 100 USD) GEL configRates
          = .ok (Money.mk 278 GEL)
        ∧ 0 ≤ (Money.mk 278 GEL).cents)
      ∧ 0 ≤ (runEvents (initBill "b" 1 USD 0)
          [WorkflowEvent.addLineItem
            (LineItem.mk "i" (Money.mk 5 USD) 0)]).total.cents := by
  have h1 : NewFromString "1.00" USD = .ok (Money.mk 100 USD) := by
    simp [NewFromString, parseGoDecimal, parseGoDecimalChars, splitFirstEe,
      splitOneDot, goParseSignedDigits, goParseExp, digitsVal, isDigitChar,
      qpow10, Money.new, Money.validate, decimalToCents, roundHalfAway,
      wrap64, USD, GEL, floor_half_q]
  have h2 : Money.add (Money.mk 1 USD) (Money.mk 2 USD)
      = .ok (Money.mk 3 USD) := by
    simp [Money.add, wrap64]
  have h3 : Money.convertTo (Money.mk 100 USD) GEL configRates
      = .ok (Money.mk 278 GEL) := by
    simp [Money.convertTo, configRates, centsToDecimal, Money.new,
      decimalToCents, roundHalfAway, wrap64, USD, GEL]
    norm_num
  have h4 : ∀ item, WorkflowEvent.addLineItem item ∈
      [WorkflowEvent.addLineItem (LineItem.mk "i" (Money.mk 5 USD) 0)] →
      0 ≤ item.amount.cents := by
    intro item hm
    simp only [List.mem_singleton, WorkflowEvent.addLineItem.injEq] at hm
    subst hm
    decide
  have h5 : eventsSum
      [WorkflowEvent.addLineItem (LineItem.mk "i" (Money.mk 5 USD) 0)]
      < 2 ^ 63 := by
    simp [eventsSum, eventCents]
  exact ⟨⟨h1, c5_nonneg_amended.1 _ _ _ h1⟩,
    ⟨h2, c5_nonneg_amended.2.1 _ _ _ (by norm_num) (by norm_num)
      (by norm_num) h2⟩,
    ⟨h3, c5_nonneg_amended.2.2.1 _ _ _ (by norm_num) (by norm_num) h3⟩,
    c5_nonneg_amended.2.2.2 "b" 1 USD 0 _ h4 h5⟩

/-- C9 (counterexample): the decimal string "-0.001" denotes a negative
amount, yet NewFromString succeeds for USD — the value rounds to zero cents
before validation — so construction does not fail for every negative
amount. -/
theorem c9_construct_counterexample :
    parseGoDecimal "-0.001" = some (-(1 / 1000))
      ∧ (-(1 / 1000) : ℚ) < 0
      ∧ NewFromString "-0.001" USD = .ok (Money.mk 0 USD) := by
  refine ⟨?_, by norm_num, ?_⟩
  · simp [parseGoDecimal, parseGoDecimalChars, splitFirstEe, splitOneDot,
      goParseSignedDigits, goParseExp, digitsVal, isDigitChar, qpow10]
  · simp [NewFromString, parseGoDecimal, parseGoDecimalChars, splitFirstEe,
      splitOneDot, goParseSignedDigits, goParseExp, digitsVal, isDigitChar,
      qpow10, Money.new, Money.validate, decimalToCents, roundHalfAway,
      wrap64, USD, GEL, floor_half_q]
    norm_num

/-- C9 (amended): the raw constructor New from a decimal value performs no
validation and never fails; NewFromString fails exactly when the string is
not a valid decimal, the currency is outside USD and GEL, or the rounded
(and 64-bit truncated) minor-unit count is negative; on success the amount
is stored as integer minor units in that currency. -/
theorem c9_construct_amended :
    (∀ (d : ℚ) (c : Currency), Money.new d c = Money.mk (decimalToCents d) c)
      ∧ (∀ (s : String) (c : Currency),
          (∃ m, NewFromString s c = .ok m)
            ↔ (∃ d, parseGoDecimal s = some d ∧ (c = USD ∨ c = GEL)
                ∧ 0 ≤ decimalToCents d))
      ∧ (∀ (s : String) (c : Currency) (d : ℚ), parseGoDecimal s = some d →
          (c = USD ∨ c = GEL) → 0 ≤ decimalToCents d →
          NewFromString s c = .ok (Money.mk (decimalToCents d) c)) := by
  have key : ∀ (s : String) (c : Currency) (d : ℚ), parseGoDecimal s = some d →
      (c = USD ∨ c = GEL) → 0 ≤ decimalToCents d →
      NewFromString s c = .ok (Money.mk (decimalToCents d) c) := by
    intro s c d hp hc hd
    unfold NewFromString
    rw [hp]
    have hv : (Money.new d c).validate = none :=
      (validate_none_iff _).mpr ⟨by simpa [Money.new] using hc,
        by simpa [Money.new] using hd⟩
    simp only [hv]
    rfl
  refine ⟨fun d c => rfl, ?_, key⟩
  intro s c
  constructor
  · rintro ⟨m, hm⟩
    unfold NewFromString at hm
    cases hp : parseGoDecimal s with
    | none =>
      rw [hp] at hm
      cases hm
    | some d =>
      rw [hp] at hm
      cases hv : (Money.new d c).validate with
      | some e =>
        simp only [hv] at hm
        cases hm
      | none =>
        have hcond := (validate_none_iff _).mp hv
        exact ⟨d, rfl, by simpa [Money.new] using hcond.1,
          by simpa [Money.new] using hcond.2⟩
  · rintro ⟨d, hp, hc, hd⟩
    exact ⟨_, key s c d hp hc hd⟩

/-- Witness for C9: the string "123.45" parses to 12345/100, construction
succeeds for USD and stores 12345 cents. -/
theorem c9_construct_amended_witness :
    parseGoDecimal "123.45" = some (12345 / 100)
      ∧ 0 ≤ decimalToCents (12345 / 100)
      ∧ NewFromString "123.45" USD = .ok (Money.mk 12345 USD) := by
  have hp : parseGoDecimal "123.45" = some (12345 / 100) := by
    simp [parseGoDecimal, parseGoDecimalChars, splitFirstEe, splitOneDot,
      goParseSignedDigits, goParseExp, digitsVal, isDigitChar, qpow10]
    norm_num
  have hdc : decimalToCents (12345 / 100) = 12345 := by
    have h1 : (12345 / 100 : ℚ) * 100 = ((12345 : ℤ) : ℚ) := by norm_num
    unfold decimalToCents
    rw [h1, roundHalfAway_intCast]
    exact wrap64_eq_self (by norm_num) (by norm_num)
  have hd : 0 ≤ decimalToCents (12345 / 100) := by rw [hdc]; norm_num
  refine ⟨hp, hd, ?_⟩
  have := c9_construct_amended.2.2 "123.45" USD (12345 / 100) hp
    (Or.inl rfl) hd
  rw [hdc] at this
  exact this

/-- C8 (counterexample): "$-0.001" has a minus sign after the symbol and a
negative numeric part, yet parsing succeeds with zero cents (the value
rounds to zero before validation), so parse-serialized does not fail for
every negative numeric part. -/
theorem c8_parse_fail_counterexample :
    parseMoneyString "$-0.001" = .ok (Money.mk 0 USD) := by
  simp [parseMoneyString, parseMoneyChars, trimChars, isGoSpace,
    parseGoDecimalChars, splitFirstEe, splitOneDot, goParseSignedDigits,
    goParseExp, digitsVal, isDigitChar, qpow10, Money.validate,
    decimalToCents, roundHalfAway, wrap64, USD, GEL, floor_half_q]
  norm_num

theorem parse_no_symbol_fails (s : String)
    (h1 : ∀ rest, trimChars s.data ≠ '$' :: rest)
    (h2 : ∀ rest, trimChars s.data ≠ '₾' :: rest) :
    ∃ e, parseMoneyString s = .error e := by
  unfold parseMoneyString parseMoneyChars
  cases hv : trimChars s.data with
  | nil =>
    simp [parseGoDecimalChars, splitFirstEe, splitOneDot, goParseSignedDigits]
  | cons c rest =>
    have hc1 : c ≠ '$' := fun h => h1 rest (by rw [hv, h])
    have hc2 : c ≠ '₾' := fun h => h2 rest (by rw [hv, h])
    simp only [if_neg hc1, if_neg hc2]
    cases hp : parseGoDecimalChars (trimChars (c :: rest)) with
    | none => simp [hp]
    | some d =>
      simp only [hp]
      have hval : (Money.mk (decimalToCents d) "").validate
          = some "invalid currency" := by
        simp [Money.validate, USD, GEL]
      simp [hval]

/-- C8 (amended): parse-serialized fails for every input that, after
trimming, does not start with a recognized currency symbol (the currency
stays the zero value and validation rejects it even when the tail is
numeric); it fails for every input whose minus sign precedes the symbol
(no symbol is then recognized); and for a minus after the symbol it fails
exactly when the amount rounds (with 64-bit truncation) to a strictly
negative minor-unit count — a tiny negative such as "$-0.001" rounds to
zero cents and is accepted. -/
theorem c8_parse_fail_amended :
    (∀ (s : String), (∀ rest, trimChars s.data ≠ '$' :: rest) →
        (∀ rest, trimChars s.data ≠ '₾' :: rest) →
        ∃ e, parseMoneyString s = .error e)
      ∧ (∀ (s : String) (rest : List Char), trimChars s.data = '-' :: rest →
          ∃ e, parseMoneyString s = .error e)
      ∧ (∀ (s : String) (rest : List Char) (d : ℚ),
          (trimChars s.data = '$' :: rest ∨ trimChars s.data = '₾' :: rest) →
          parseGoDecimalChars (trimChars rest) = some d →
          decimalToCents d < 0 →
          ∃ e, parseMoneyString s = .error e) := by
  refine ⟨parse_no_symbol_fails, ?_, ?_⟩
  · intro s rest h
    apply parse_no_symbol_fails
    · intro r heq
      rw [h] at heq
      injection heq with hh _
      exact absurd hh (by decide)
    · intro r heq
      rw [h] at heq
      injection heq with hh _
      exact absurd hh (by decide)
  · intro s rest d hsym hp hneg
    unfold parseMoneyString parseMoneyChars
    rcases hsym with hv | hv <;> rw [hv]
    · have hval : (Money.mk (decimalToCents d) USD).validate
          = some "amount cannot be negative" := by
        simp [Money.validate, USD, GEL, hneg]
      simp [hp, hval]
    · have hval : (Money.mk (decimalToCents d) GEL).validate
          = some "amount cannot be negative" := by
        simp [Money.validate, USD, GEL, hneg]
      simp [hp, hval]

/-- Witness for C8: "€5" (no recognized symbol), "-$1.00" (minus before the
symbol) and "$-1.00" (minus after the symbol, strictly negative cents) all
fail to parse. -/
theorem c8_parse_fail_amended_witness :
    (∃ e, parseMoneyString "€5" = .error e)
      ∧ (∃ e, parseMoneyString "-$1.00" = .error e)
      ∧ (∃ e, parseMoneyString "$-1.00" = .error e) := by
  have ht1 : trimChars ("€5" : String).data = ['€', '5'] := by decide
  have ht2 : trimChars ("-$1.00" : String).data
      = '-' :: ['$', '1', '.', '0', '0'] := by decide
  have ht3 : trimChars ("$-1.00" : String).data
      = '$' :: ['-', '1', '.', '0', '0'] := by decide
  have hp3 : parseGoDecimalChars (trimChars ['-', '1', '.', '0', '0'])
      = some (-(100 / 100)) := by
    simp [trimChars, isGoSpace, parseGoDecimalChars, splitFirstEe,
      splitOneDot, goParseSignedDigits, goParseExp, digitsVal, isDigitChar,
      qpow10]
  have hneg3 : decimalToCents (-(100 / 100)) < 0 := by
    have h1 : ((-(100 / 100) : ℚ) * 100) = ((-100 : ℤ) : ℚ) := by norm_num
    unfold decimalToCents
    rw [h1, roundHalfAway_intCast]
    rw [wrap64_eq_self (by norm_num) (by norm_num)]
    norm_num
  refine ⟨?_, ?_, ?_⟩
  · apply c8_parse_fail_amended.1 "€5"
    · intro rest h
      rw [ht1] at h
      injection h with hh _
      exact absurd hh (by decide)
    · intro rest h
      rw [ht1] at h
      injection h with hh _
      exact absurd hh (by decide)
  · exact c8_parse_fail_amended.2.1 "-$1.00" ['$', '1', '.', '0', '0'] ht2
  · exact c8_parse_fail_amended.2.2 "$-1.00" ['-', '1', '.', '0', '0']
      (-(100 / 100)) (Or.inl ht3) hp3 hneg3

theorem digitChar_props (k : ℕ) :
    isDigitChar (digitChar k) = true
      ∧ (digitChar k).toNat - 48 = k % 10
      ∧ digitChar k ≠ '.' ∧ digitChar k ≠ 'e' ∧ digitChar k ≠ 'E'
      ∧ isGoSpace (digitChar k) = false
      ∧ digitChar k ≠ '+' ∧ digitChar k ≠ '-' := by
  have h : k % 10 < 10 := Nat.mod_lt _ (by norm_num)
  unfold digitChar
  set j := k % 10 with hj
  clear_value j
  interval_cases j <;> exact (by decide)

theorem foldl_digits (cs : List Char) :
    ∀ a, cs.foldl (fun a c => 10 * a + (c.toNat - 48)) a
      = a * 10 ^ cs.length
        + cs.foldl (fun a c => 10 * a + (c.toNat - 48)) 0 := by
  induction cs with
  | nil => intro a; simp
  | cons c rest ih =>
    intro a
    rw [List.foldl_cons, ih (10 * a + (c.toNat - 48)), List.foldl_cons,
      ih (10 * 0 + (c.toNat - 48)), List.length_cons]
    ring

theorem digitsVal_append (a b : List Char) :
    digitsVal (a ++ b) = digitsVal a * 10 ^ b.length + digitsVal b := by
  unfold digitsVal
  rw [List.foldl_append]
  exact foldl_digits b _

theorem digitsVal_pair (a b : Char) :
    digitsVal [a, b] = 10 * (a.toNat - 48) + (b.toNat - 48) := by
  unfold digitsVal
  rw [List.foldl_cons, List.foldl_cons, List.foldl_nil]
  omega

theorem digitsVal_one (a : Char) : digitsVal [a] = a.toNat - 48 := by
  unfold digitsVal
  rw [List.foldl_cons, List.foldl_nil]
  omega

/-- Character-level well-formedness of a digit run: every character is a
digit and is none of the separator or sign characters. -/
def goodDigits (cs : List Char) : Prop :=
  ∀ c ∈ cs, isDigitChar c = true ∧ c ≠ '.' ∧ c ≠ 'e' ∧ c ≠ 'E'
    ∧ isGoSpace c = false ∧ c ≠ '+' ∧ c ≠ '-'

theorem goodDigits_digitChar (k : ℕ) : goodDigits [digitChar k] := by
  intro c hc
  rw [List.mem_singleton] at hc
  subst hc
  have hd := digitChar_props k
  exact ⟨hd.1, hd.2.2.1, hd.2.2.2.1, hd.2.2.2.2.1, hd.2.2.2.2.2.1,
    hd.2.2.2.2.2.2.1, hd.2.2.2.2.2.2.2⟩

theorem goodDigits_append {a b : List Char} (ha : goodDigits a)
    (hb : goodDigits b) : goodDigits (a ++ b) := by
  intro c hc
  rcases List.mem_append.mp hc with h | h
  · exact ha c h
  · exact hb c h

theorem natDigitsAux_succ (m n : ℕ) :
    natDigitsAux (m + 1) n
      = if n < 10 then [digitChar n]
        else natDigitsAux (n / 10) (n / 10) ++ [digitChar (n % 10)] := by
  conv_lhs => rw [natDigitsAux]

theorem natDigitsAux_spec :
    ∀ n m, 1 ≤ m → digitsVal (natDigitsAux m n) = n
      ∧ natDigitsAux m n ≠ [] ∧ goodDigits (natDigitsAux m n) := by
  intro n
  induction n using Nat.strong_induction_on with
  | _ n ih =>
    intro m hm
    obtain ⟨m', rfl⟩ : ∃ m', m = m' + 1 := ⟨m - 1, by omega⟩
    rw [natDigitsAux_succ]
    by_cases h10 : n < 10
    · rw [if_pos h10]
      have hd := digitChar_props n
      refine ⟨?_, by simp, goodDigits_digitChar n⟩
      rw [digitsVal_one, hd.2.1]
      omega
    · rw [if_neg h10]
      have hrec := ih (n / 10) (by omega) (n / 10) (by omega)
      have hd := digitChar_props (n % 10)
      refine ⟨?_, by simp, goodDigits_append hrec.2.2 (goodDigits_digitChar _)⟩
      rw [digitsVal_append, hrec.1, digitsVal_one, hd.2.1,
        List.length_singleton]
      omega

theorem natDigits_spec (n : ℕ) :
    digitsVal (natDigits n) = n ∧ natDigits n ≠ []
      ∧ goodDigits (natDigits n) :=
  natDigitsAux_spec n (n + 1) (by omega)

theorem pad2_spec (r : ℕ) (h : r < 100) :
    digitsVal (pad2 r) = r ∧ (pad2 r).length = 2 ∧ goodDigits (pad2 r) := by
  have hd1 := digitChar_props ((r / 10) % 10)
  have hd2 := digitChar_props (r % 10)
  refine ⟨?_, rfl, ?_⟩
  · unfold pad2
    rw [digitsVal_pair, hd1.2.1, hd2.2.1]
    omega
  · intro c hc
    unfold pad2 at hc
    rcases List.mem_cons.mp hc with h1 | h2
    · subst h1
      exact goodDigits_digitChar _ _ (List.mem_singleton_self _)
    · rw [List.mem_singleton] at h2
      subst h2
      exact goodDigits_digitChar _ _ (List.mem_singleton_self _)

theorem splitFirstEe_no_e {cs : List Char}
    (h : ∀ c ∈ cs, c ≠ 'e' ∧ c ≠ 'E') : splitFirstEe cs = (cs, none) := by
  induction cs with
  | nil => rfl
  | cons c rest ih =>
    have hc := h c (List.mem_cons_self _ _)
    unfold splitFirstEe
    rw [if_neg (by tauto)]
    rw [ih (fun x hx => h x (List.mem_cons_of_mem _ hx))]

theorem contains_dot_false {b : List Char} (h : ∀ c ∈ b, c ≠ '.') :
    b.contains '.' = false := by
  induction b with
  | nil => rfl
  | cons c rest ih =>
    have hc := h c (List.mem_cons_self _ _)
    simp only [List.contains_cons, Bool.or_eq_false_iff]
    constructor
    · exact beq_eq_false_iff_ne.mpr (fun he => hc he.symm)
    · exact ih (fun x hx => h x (List.mem_cons_of_mem _ hx))

theorem splitOneDot_append {a b : List Char} (ha : ∀ c ∈ a, c ≠ '.')
    (hb : ∀ c ∈ b, c ≠ '.') : splitOneDot (a ++ '.' :: b) = some (a, b) := by
  induction a with
  | nil =>
    rw [List.nil_append]
    unfold splitOneDot
    have hcb : b.contains '.' = false := contains_dot_false hb
    simp [hcb]
    intro hmem
    exact hb '.' hmem rfl
  | cons c rest ih =>
    have hc := ha c (List.mem_cons_self _ _)
    rw [List.cons_append]
    unfold splitOneDot
    rw [if_neg hc]
    rw [ih (fun x hx => ha x (List.mem_cons_of_mem _ hx))]

theorem dropWhile_eq_self_of {p : Char → Bool} {cs : List Char}
    (h : ∀ c ∈ cs, p c = false) : cs.dropWhile p = cs := by
  cases cs with
  | nil => rfl
  | cons c rest =>
    rw [List.dropWhile_cons]
    rw [h c (List.mem_cons_self _ _)]
    simp

theorem trimChars_eq_self {cs : List Char}
    (h : ∀ c ∈ cs, isGoSpace c = false) : trimChars cs = cs := by
  unfold trimChars
  rw [dropWhile_eq_self_of h]
  rw [dropWhile_eq_self_of (fun c hc => h c (List.mem_reverse.mp hc))]
  exact List.reverse_reverse cs

theorem goParseSignedDigits_digits {cs : List Char} (hne : cs ≠ [])
    (hd : ∀ c ∈ cs, isDigitChar c = true) :
    goParseSignedDigits cs = some ((digitsVal cs : ℕ) : ℤ) := by
  cases cs with
  | nil => exact absurd rfl hne
  | cons c rest =>
    have hc := hd c (List.mem_cons_self _ _)
    have hplus : c ≠ '+' := by
      intro he
      rw [he] at hc
      exact absurd hc (by decide)
    have hminus : c ≠ '-' := by
      intro he
      rw [he] at hc
      exact absurd hc (by decide)
    simp only [goParseSignedDigits]
    rw [if_neg hplus, if_neg hminus, if_pos (List.all_eq_true.mpr hd)]

theorem parseGoDecimalChars_canonical {a b : List Char} (hane : a ≠ [])
    (hga : goodDigits a) (hgb : goodDigits b)
    (hblen : (b.length : ℤ) ≤ 2147483648) :
    parseGoDecimalChars (a ++ '.' :: b)
      = some ((digitsVal (a ++ b) : ℚ) * qpow10 (0 - b.length)) := by
  have hee : splitFirstEe (a ++ '.' :: b) = (a ++ '.' :: b, none) := by
    apply splitFirstEe_no_e
    intro c hc
    rcases List.mem_append.mp hc with h | h
    · exact ⟨(hga c h).2.2.1, (hga c h).2.2.2.1⟩
    · rcases List.mem_cons.mp h with h1 | h2
      · subst h1
        exact ⟨by decide, by decide⟩
      · exact ⟨(hgb c h2).2.2.1, (hgb c h2).2.2.2.1⟩
  have hdot : splitOneDot (a ++ '.' :: b) = some (a, b) :=
    splitOneDot_append (fun c hc => (hga c hc).2.1)
      (fun c hc => (hgb c hc).2.1)
  have hsd : goParseSignedDigits (a ++ b)
      = some ((digitsVal (a ++ b) : ℕ) : ℤ) :=
    goParseSignedDigits_digits (by simp [hane])
      (fun c hc => by
        rcases List.mem_append.mp hc with h | h
        · exact (hga c h).1
        · exact (hgb c h).1)
  unfold parseGoDecimalChars
  rw [hee]
  simp only [hdot, hsd]
  rw [if_pos ⟨by omega, by omega⟩]
  norm_cast

theorem roundTE_nonneg {q : ℚ} (h : 0 ≤ q) : 0 ≤ roundTE q := by
  have hf : 0 ≤ ⌊q⌋ := Int.le_floor.mpr (by exact_mod_cast h)
  simp only [roundTE]
  split_ifs <;> omega

theorem roundTE_abs_sub_le (q : ℚ) : |(roundTE q : ℚ) - q| ≤ 1 / 2 := by
  have h1 : (⌊q⌋ : ℚ) ≤ q := Int.floor_le q
  have h2 : q < ⌊q⌋ + 1 := Int.lt_floor_add_one q
  simp only [roundTE]
  split_ifs with hA hB hC <;> rw [abs_le] <;> push_cast <;>
    constructor <;> linarith

theorem roundTE_eq_of_close {k : ℤ} {q : ℚ} (h : |q - (k : ℚ)| < 1 / 2) :
    roundTE q = k := by
  rw [abs_lt] at h
  have h1 : (⌊q⌋ : ℚ) ≤ q := Int.floor_le q
  have h2 : q < ⌊q⌋ + 1 := Int.lt_floor_add_one q
  have hup : ⌊q⌋ < k + 1 := by
    have hc : (⌊q⌋ : ℚ) < (k : ℚ) + 1 := by linarith [h.2]
    exact_mod_cast hc
  have hdn : k - 2 < ⌊q⌋ := by
    have hc : (k : ℚ) - 2 < (⌊q⌋ : ℚ) := by linarith [h.1]
    exact_mod_cast hc
  have hfl : ⌊q⌋ = k ∨ ⌊q⌋ = k - 1 := by omega
  simp only [roundTE]
  split_ifs with hA hB hC
  · rcases hfl with hf | hf
    · exact hf
    · exfalso
      rw [hf] at hA
      push_cast at hA
      linarith [h.1]
  · rcases hfl with hf | hf
    · exfalso
      rw [hf] at hB
      linarith [h.2]
    · omega
  · rcases hfl with hf | hf
    · exfalso
      rw [hf] at hA hB
      linarith [h.2]
    · exfalso
      rw [hf] at hA hB
      push_cast at hA hB
      linarith [h.1]
  · rcases hfl with hf | hf
    · exfalso
      rw [hf] at hA hB
      linarith [h.2]
    · exfalso
      rw [hf] at hA hB
      push_cast at hA hB
      linarith [h.1]

theorem pow2z_pos (s : ℤ) : 0 < pow2z s := by
  unfold pow2z
  split_ifs <;> positivity

theorem pow2z_le_of_le_neg {s : ℤ} (h : s ≤ -8) : pow2z s ≤ 1 / 256 := by
  unfold pow2z
  rw [if_neg (by omega)]
  have h8 : 8 ≤ (-s).toNat := by omega
  have hle : (256 : ℚ) ≤ ((2 ^ (-s).toNat : ℕ) : ℚ) := by
    have hn : (2 : ℕ) ^ 8 ≤ 2 ^ (-s).toNat :=
      Nat.pow_le_pow_right (by norm_num) h8
    have hq : ((2 ^ 8 : ℕ) : ℚ) ≤ ((2 ^ (-s).toNat : ℕ) : ℚ) := by
      exact_mod_cast hn
    norm_num at hq
    exact_mod_cast hq
  calc ((2 ^ (-s).toNat : ℕ) : ℚ)⁻¹
      ≤ (256 : ℚ)⁻¹ := inv_anti₀ (by norm_num) hle
    _ = 1 / 256 := by norm_num

theorem qlog2floor_le {q : ℚ} (h : q < 2 ^ 45) : qlog2floor q ≤ 44 := by
  simp only [qlog2floor]
  split_ifs with h1 h2
  · have hfq : ⌊q⌋ < 2 ^ 45 := by
      have hc : (⌊q⌋ : ℚ) < ((2 ^ 45 : ℤ) : ℚ) :=
        lt_of_le_of_lt (Int.floor_le q) (by exact_mod_cast h)
      exact_mod_cast hc
    have hpos : 1 ≤ ⌊q⌋ := Int.le_floor.mpr (by exact_mod_cast h1)
    have hne : Int.toNat ⌊q⌋ ≠ 0 := by omega
    have hlt : Int.toNat ⌊q⌋ < 2 ^ 45 := by omega
    have := (Nat.log2_lt hne).mpr hlt
    omega
  · omega
  · omega

theorem goDiv100_close (x : ℚ) (h0 : 0 ≤ x) (hb : x / 100 < 2 ^ 45) :
    0 ≤ goDiv100 x ∧ |goDiv100 x - x / 100| ≤ 1 / 512 := by
  simp only [goDiv100]
  have hq0 : 0 ≤ x / 100 := by positivity
  have habs : |x / 100| = x / 100 := abs_of_nonneg hq0
  rw [habs]
  have he44 : qlog2floor (x / 100) ≤ 44 := qlog2floor_le hb
  have hs8 : qlog2floor (x / 100) - 52 ≤ -8 := by omega
  have hp := pow2z_pos (qlog2floor (x / 100) - 52)
  have hple := pow2z_le_of_le_neg hs8
  constructor
  · apply mul_nonneg _ (le_of_lt hp)
    have := roundTE_nonneg (div_nonneg hq0 (le_of_lt hp))
    exact_mod_cast this
  · have key : (roundTE (x / 100 / pow2z (qlog2floor (x / 100) - 52)) : ℚ)
        * pow2z (qlog2floor (x / 100) - 52) - x / 100
        = ((roundTE (x / 100 / pow2z (qlog2floor (x / 100) - 52)) : ℚ)
          - x / 100 / pow2z (qlog2floor (x / 100) - 52))
          * pow2z (qlog2floor (x / 100) - 52) := by
      field_simp
      ring
    rw [key, abs_mul, abs_of_pos hp]
    calc |(roundTE (x / 100 / pow2z (qlog2floor (x / 100) - 52)) : ℚ)
          - x / 100 / pow2z (qlog2floor (x / 100) - 52)|
          * pow2z (qlog2floor (x / 100) - 52)
        ≤ (1 / 2) * (1 / 256) :=
          mul_le_mul (roundTE_abs_sub_le _) hple (le_of_lt hp) (by norm_num)
      _ = 1 / 512 := by norm_num

theorem centsToDecimalString_eq (c : ℤ) (h0 : 0 ≤ c) (hb : c ≤ 2 ^ 51) :
    centsToDecimalString c
      = String.mk (natDigits (c.toNat / 100) ++ '.' :: pad2 (c.toNat % 100)) := by
  unfold centsToDecimalString
  have hfl : goFloatOfInt c = (c : ℚ) := by
    unfold goFloatOfInt
    rw [if_pos (by omega)]
  rw [hfl]
  have hc0 : (0 : ℚ) ≤ (c : ℚ) := by exact_mod_cast h0
  have hq45 : (c : ℚ) / 100 < 2 ^ 45 := by
    have hcb : (c : ℚ) ≤ 2 ^ 51 := by exact_mod_cast hb
    nlinarith
  obtain ⟨hd0, hdist⟩ := goDiv100_close (c : ℚ) hc0 hq45
  unfold formatF2
  have hnlt : ¬ goDiv100 (c : ℚ) < 0 := not_lt.mpr hd0
  rw [if_neg hnlt, abs_of_nonneg hd0]
  have hn : roundTE (goDiv100 (c : ℚ) * 100) = c := by
    apply roundTE_eq_of_close
    have hkey : goDiv100 (c : ℚ) * 100 - (c : ℚ)
        = (goDiv100 (c : ℚ) - (c : ℚ) / 100) * 100 := by ring
    rw [hkey, abs_mul]
    rw [show |(100 : ℚ)| = 100 from by norm_num]
    calc |goDiv100 (c : ℚ) - (c : ℚ) / 100| * 100
        ≤ (1 / 512) * 100 := by
          apply mul_le_mul_of_nonneg_right hdist (by norm_num)
      _ < 1 / 2 := by norm_num
  rw [hn]
  show "" ++ _ = _
  rw [String.empty_append]

theorem parseMoney_canonical (cur : Currency) (sym : Char) (c : ℤ)
    (h0 : 0 ≤ c) (hb : c < 2 ^ 63)
    (hsym : (sym = '$' ∧ cur = USD) ∨ (sym = '₾' ∧ cur = GEL)) :
    parseMoneyChars
        (sym :: (natDigits (c.toNat / 100) ++ '.' :: pad2 (c.toNat % 100)))
      = .ok (Money.mk c cur) := by
  have hna := natDigits_spec (c.toNat / 100)
  have hpb := pad2_spec (c.toNat % 100) (Nat.mod_lt _ (by norm_num))
  have hsymns : isGoSpace sym = false := by
    rcases hsym with ⟨hs, _⟩ | ⟨hs, _⟩ <;> subst hs <;> decide
  have hbodyns : ∀ ch ∈ natDigits (c.toNat / 100) ++ '.'
      :: pad2 (c.toNat % 100), isGoSpace ch = false := by
    intro ch hch
    rcases List.mem_append.mp hch with h | h
    · exact (hna.2.2 ch h).2.2.2.2.1
    · rcases List.mem_cons.mp h with h1 | h2
      · subst h1
        decide
      · exact (hpb.2.2 ch h2).2.2.2.2.1
  have htrim : trimChars (sym :: (natDigits (c.toNat / 100) ++ '.'
      :: pad2 (c.toNat % 100)))
      = sym :: (natDigits (c.toNat / 100) ++ '.' :: pad2 (c.toNat % 100)) := by
    apply trimChars_eq_self
    intro ch hch
    rcases List.mem_cons.mp hch with h1 | h2
    · subst h1
      exact hsymns
    · exact hbodyns ch h2
  have htrim2 : trimChars (natDigits (c.toNat / 100) ++ '.'
      :: pad2 (c.toNat % 100))
      = natDigits (c.toNat / 100) ++ '.' :: pad2 (c.toNat % 100) :=
    trimChars_eq_self hbodyns
  have hparse := parseGoDecimalChars_canonical hna.2.1 hna.2.2 hpb.2.2
    (by rw [hpb.2.1]; norm_num)
  have hval : digitsVal (natDigits (c.toNat / 100) ++ pad2 (c.toNat % 100))
      = c.toNat := by
    rw [digitsVal_append, hna.1, hpb.1, hpb.2.1]
    omega
  have hqp : qpow10 (-(((pad2 (c.toNat % 100)).length : ℕ) : ℤ)) = 1 / 100 := by
    rw [hpb.2.1]
    unfold qpow10
    rw [if_neg (by norm_num)]
    rw [neg_neg, show ((2 : ℕ) : ℤ).toNat = 2 from rfl]
    norm_num
  have hdc : decimalToCents ((c.toNat : ℚ) * (100 : ℚ)⁻¹) = c := by
    unfold decimalToCents
    have hmul : (c.toNat : ℚ) * (100 : ℚ)⁻¹ * 100 = ((c : ℤ) : ℚ) := by
      have : ((c.toNat : ℕ) : ℚ) = ((c : ℤ) : ℚ) := by
        exact_mod_cast congrArg (Int.cast : ℤ → ℚ) (Int.toNat_of_nonneg h0)
      rw [← this]
      field_simp
    rw [hmul, roundHalfAway_intCast]
    exact wrap64_eq_self (by omega) hb
  unfold parseMoneyChars
  rw [htrim]
  rcases hsym with ⟨hs, hc⟩ | ⟨hs, hc⟩ <;> subst hs <;> subst hc
  · have hvn : (Money.mk c USD).validate = none := by
      simp [Money.validate, USD, GEL]
      omega
    simp [htrim2, hparse, hval, hqp, hdc, hvn]
  · have hvn : (Money.mk c GEL).validate = none := by
      simp [Money.validate, USD, GEL]
      omega
    simp [htrim2, hparse, hval, hqp, hdc, hvn]

/-- C4 (amended): for every valid Money value with at most 2 ^ 51 cents —
the range in which the float64-based renderer is exact — parsing the
serialized string (symbol followed by the two-decimal amount) yields the
value back: parse composed with render is the identity there. -/
theorem c4_roundtrip_amended (m : Money)
    (hcur : m.currency = USD ∨ m.currency = GEL) (h0 : 0 ≤ m.cents)
    (hb : m.cents ≤ 2 ^ 51) :
    parseMoneyString m.formatWithSymbol = .ok m := by
  obtain ⟨c, cur⟩ := m
  simp only [] at hcur h0 hb
  have hc63 : c < 2 ^ 63 := by
    have hp : (2 : ℤ) ^ 51 < 2 ^ 63 := by norm_num
    omega
  unfold parseMoneyString Money.formatWithSymbol
  rw [centsToDecimalString_eq c h0 hb]
  rcases hcur with hc | hc <;> subst hc
  · have hsymb : currencySymbol USD = "$" := by simp [currencySymbol]
    rw [hsymb]
    have hdata : (("$" : String)
          ++ String.mk (natDigits (c.toNat / 100) ++ '.'
            :: pad2 (c.toNat % 100))).data
        = '$' :: (natDigits (c.toNat / 100) ++ '.'
          :: pad2 (c.toNat % 100)) := by
      rw [String.data_append]
      rfl
    rw [hdata]
    exact parseMoney_canonical USD '$' c h0 hc63 (Or.inl ⟨rfl, rfl⟩)
  · have hsymb : currencySymbol GEL = "₾" := by simp [currencySymbol, USD, GEL]
    rw [hsymb]
    have hdata : (("₾" : String)
          ++ String.mk (natDigits (c.toNat / 100) ++ '.'
            :: pad2 (c.toNat % 100))).data
        = '₾' :: (natDigits (c.toNat / 100) ++ '.'
          :: pad2 (c.toNat % 100)) := by
      rw [String.data_append]
      rfl
    rw [hdata]
    exact parseMoney_canonical GEL '₾' c h0 hc63 (Or.inr ⟨rfl, rfl⟩)

theorem roundTE_int_add_half {n : ℤ} (he : n % 2 = 0) :
    roundTE ((n : ℚ) + 1 / 2) = n := by
  simp only [roundTE]
  have hhalf : ⌊(1 / 2 : ℚ)⌋ = 0 := by norm_num
  have hf : ⌊(n : ℚ) + 1 / 2⌋ = n := by
    rw [Int.floor_int_add, hhalf, add_zero]
  rw [hf]
  have hr : (n : ℚ) + 1 / 2 - (n : ℤ) = 1 / 2 := by ring
  rw [hr]
  rw [if_neg (by norm_num), if_neg (by norm_num), if_pos he]

/-- C4 (counterexample): the renderer converts the cent count through
float64, which identifies 2 ^ 53 + 1 with 2 ^ 53, so two distinct valid
USD Money values serialize to the same string; parse-after-render cannot
be the identity on both, refuting the claim over all valid Money values. -/
theorem c4_roundtrip_counterexample :
    ¬ (∀ m : Money, (m.currency = USD ∨ m.currency = GEL) → 0 ≤ m.cents →
        parseMoneyString m.formatWithSymbol = .ok m) := by
  intro hclaim
  have hfl2 : goFloatOfInt 9007199254740992 = ((9007199254740992 : ℤ) : ℚ) := by
    unfold goFloatOfInt
    rw [if_pos (by norm_num [Int.natAbs])]
  have hfl1 : goFloatOfInt 9007199254740993 = ((9007199254740992 : ℤ) : ℚ) := by
    unfold goFloatOfInt
    rw [if_neg (by norm_num [Int.natAbs])]
    have hlog : Nat.log2 ((9007199254740993 : ℤ).natAbs) = 53 := by
      rw [show (9007199254740993 : ℤ).natAbs = 9007199254740993 from rfl]
      rw [Nat.log2_eq_log_two]
      exact Nat.log_eq_of_pow_le_of_lt_pow (by norm_num) (by norm_num)
    rw [hlog]
    rw [show (53 : ℕ) - 52 = 1 from rfl]
    simp only []
    have hdiv : ((9007199254740993 : ℤ) : ℚ) / ((2 ^ 1 : ℕ) : ℚ)
        = ((4503599627370496 : ℤ) : ℚ) + 1 / 2 := by norm_num
    rw [hdiv, roundTE_int_add_half (by decide)]
    norm_num
  have hrender : (Money.mk 9007199254740993 USD).formatWithSymbol
      = (Money.mk 9007199254740992 USD).formatWithSymbol := by
    unfold Money.formatWithSymbol centsToDecimalString
    rw [hfl1, hfl2]
  have h1 := hclaim (Money.mk 9007199254740993 USD) (Or.inl rfl) (by norm_num)
  have h2 := hclaim (Money.mk 9007199254740992 USD) (Or.inl rfl) (by norm_num)
  rw [hrender] at h1
  have h3 := h2.symm.trans h1
  injection h3 with h4
  have h5 : (9007199254740992 : ℤ) = 9007199254740993 :=
    congrArg Money.cents h4
  norm_num at h5

/-- Witness for C4 at the concrete value $123.45 (12345 cents, USD). -/
theorem c4_roundtrip_amended_witness :
    ((Money.mk 12345 USD).currency = USD
        ∨ (Money.mk 12345 USD).currency = GEL)
      ∧ 0 ≤ (Money.mk 12345 USD).cents
      ∧ (Money.mk 12345 USD).cents ≤ 2 ^ 51
      ∧ parseMoneyString (Money.mk 12345 USD).formatWithSymbol
        = .ok (Money.mk 12345 USD) :=
  ⟨Or.inl rfl, by norm_num, by norm_num,
    c4_roundtrip_amended (Money.mk 12345 USD) (Or.inl rfl) (by norm_num)
      (by norm_num)⟩
